import Mathlib

/-!
Verification of the dynamic column management engine of `EICRootWriter`
(`src/services/io/podio/EICRootWriter.cc`).

The C++ code is shallowly embedded: native record payloads are modelled as
`Nat` values, C++ `std::type_index` values as `Nat` codes, and the mutable
writer/store state as explicit functional state.  Each definition mirrors one
function of the source file; line numbers in doc comments refer to
`EICRootWriter.cc`.
-/

/-- A JANA factory (producer), as seen by the writer.
`tag`/`objectName`/`objectType` mirror `JFactory::GetTag`, `GetObjectName`,
`GetObjectType`.  `objects` holds the native values of the records the
factory currently holds (the result of the clone / `prepareForWrite`
pipeline when it succeeds); `recordType` is the record type the generated
glue dispatch maps this factory to (`none` when the factory's type has no
edm4hep mapping), paired with that record type's collection class name;
`convError` is `some msg` when the record-library conversion for this
factory throws. -/
structure JFactory where
  tag : String
  objectName : String
  objectType : Nat
  objects : List Nat
  recordType : Option (Nat × String)
  convError : Option String
deriving Repr, DecidableEq

/-- `EICEventStore::DataVector`: one named, typed row buffer
(name, className, storage). -/
structure DataVector where
  name : String
  className : String
  storage : List Nat
deriving Repr, DecidableEq

/-- `EICEventStore`: the ordered list `m_datavectors` of row buffers. -/
abbrev EICEventStore := List DataVector

/-- First buffer with the given name, as found by the lookup loop in
`PutPODIODataT` (lines 105-110). -/
def lookupStore : EICEventStore → String → Option (List Nat)
  | [], _ => none
  | dv :: rest, nm => if dv.name = nm then some dv.storage else lookupStore rest nm

/-- Replace the storage of the first buffer with the given name (the effect
of `vecptr->swap(*databuffer)` at line 141 on the store). -/
def replaceFirst : EICEventStore → String → List Nat → EICEventStore
  | [], _, _ => []
  | dv :: rest, nm, vals =>
    if dv.name = nm then { dv with storage := vals } :: rest
    else dv :: replaceFirst rest nm vals

/-- A physical branch of the events TTree: its name, the class name recorded
in `m_collection_branches`, and the number of rows flushed into it so far. -/
structure Branch where
  name : String
  className : String
  rows : Nat
deriving Repr, DecidableEq

/-- The job-lifetime state of `EICRootWriter` relevant to column management:
the two filter sets from `Init`, the events tree (its entry count and its
branches), and the collection-ID table. -/
structure WriterState where
  m_OUTPUT_INCLUDE_COLLECTIONS : List String
  m_OUTPUT_EXCLUDE_COLLECTIONS : List String
  entries : Nat
  branches : List Branch
  m_collectionIDtable : List String
deriving Repr, DecidableEq

/-- `EICRootWriter::GetIncludeCollections`. -/
def GetIncludeCollections (w : WriterState) : List String :=
  w.m_OUTPUT_INCLUDE_COLLECTIONS

/-- `EICRootWriter::GetExcludeCollections`. -/
def GetExcludeCollections (w : WriterState) : List String :=
  w.m_OUTPUT_EXCLUDE_COLLECTIONS

/-- `DeriveCollectionName<T>` (lines 54-64): empty tag uses the factory's
object name; otherwise the tag is used exactly when `typeid(T)` equals the
factory's object type; otherwise the object name.  The `edm4hep_name`
parameter is taken but never read, exactly as in the source. -/
def DeriveCollectionName (Tcode : Nat) (_edm4hep_name : String) (fac : JFactory) : String :=
  if fac.tag = "" then fac.objectName
  else if Tcode = fac.objectType then fac.tag
  else fac.objectName

/-- `PutPODIODataT<T,C>` (lines 87-148).  Returns the result of the call
(`Except.error` when the record-library conversion throws, otherwise the
derived collection name, `""` when filtered out) together with the store
after the call.  Note that line 100 of the source initialises the variable
`include_collections` from `writer->GetExcludeCollections()`; the embedding
reproduces that literally. -/
def PutPODIODataT (writer : WriterState) (Tcode : Nat) (className : String)
    (fac : JFactory) (store : EICEventStore) : Except String String × EICEventStore :=
  let collection_name := DeriveCollectionName Tcode className fac
  let exclude_collections := GetExcludeCollections writer
  if collection_name ∈ exclude_collections then (Except.ok "", store)
  else
    let include_collections := GetExcludeCollections writer
    if include_collections ≠ [] ∧ collection_name ∉ include_collections then
      (Except.ok "", store)
    else
      let store1 :=
        match lookupStore store collection_name with
        | some _ => store
        | none => store ++ [⟨collection_name, className, []⟩]
      match fac.convError with
      | some msg => (Except.error msg, store1)
      | none => (Except.ok collection_name, replaceFirst store1 collection_name fac.objects)

/-- `PutPODIOData` from the generated `datamodel_glue.h`: dispatches on the
factory's record type; a factory whose type has no mapping silently does
nothing and returns an empty name (comment at lines 369-373). -/
def PutPODIOData (writer : WriterState) (fac : JFactory) (store : EICEventStore) :
    Except String String × EICEventStore :=
  match fac.recordType with
  | none => (Except.ok "", store)
  | some (tc, cls) => PutPODIODataT writer tc cls fac store

/-- `EICRootWriter::CreateBranch` (lines 229-274): create the branch,
record its class name, and backfill one placeholder row (from an empty
buffer) per entry already in the events tree, so the new branch starts with
`entries` rows. -/
def CreateBranch (w : WriterState) (dv : DataVector) : WriterState :=
  { w with branches := w.branches ++ [⟨dv.name, dv.className, w.entries⟩] }

/-- Whether a branch with this name already exists
(`m_collection_branches.count(dv->name)`, line 304). -/
def branchExists (w : WriterState) (nm : String) : Bool :=
  w.branches.any fun b => b.name == nm

/-- Modelled from the spec: the Column Registry (podio `CollectionIDTable`,
whose code is not part of this repository) keeps column names in first-seen
order; registration appends a name only when it is not yet present.  This is
the combined effect of line 312,
`if( ! m_collectionIDtable.present(dv->name) ) m_collectionIDtable.add(dv->name);`. -/
def registerCollection (t : List String) (nm : String) : List String :=
  if nm ∈ t then t else t ++ [nm]

/-- Modelled from the spec: the identity the Column Registry assigns to a
name is its (first) position in the first-seen order. -/
def collectionID (t : List String) (nm : String) : Nat :=
  t.indexOf nm

/-- One iteration of the loop in `EICRootWriter::ResetBranches`
(lines 295-338): apply the exclude and include filters, lazily create the
branch, and register the collection ID if not yet present. -/
def ResetBranchesStep (w : WriterState) (dv : DataVector) : WriterState :=
  if dv.name ∈ w.m_OUTPUT_EXCLUDE_COLLECTIONS then w
  else if w.m_OUTPUT_INCLUDE_COLLECTIONS ≠ [] ∧ dv.name ∉ w.m_OUTPUT_INCLUDE_COLLECTIONS then w
  else
    let w1 := if branchExists w dv.name then w else CreateBranch w dv
    { w1 with m_collectionIDtable := registerCollection w1.m_collectionIDtable dv.name }

/-- `EICRootWriter::ResetBranches` (lines 290-339). -/
def ResetBranches (w : WriterState) (store : EICEventStore) : WriterState :=
  store.foldl ResetBranchesStep w

/-- `m_datatree->Fill()` (line 392): one more entry in the tree, one more
row in every existing branch. -/
def fillTree (w : WriterState) : WriterState :=
  { w with entries := w.entries + 1,
           branches := w.branches.map fun b => { b with rows := b.rows + 1 } }

/-- The factory loop of `EICRootWriter::Process` (lines 367-382): factories
with no objects are skipped; conversion errors are caught and written to the
error stream as `what() ++ " : " ++ GetObjectName()`, and the loop
continues.  Returns the final store and the error log in emission order. -/
def processFactories (w : WriterState) : List JFactory → EICEventStore →
    EICEventStore × List String
  | [], store => (store, [])
  | fac :: rest, store =>
    if fac.objects.length ≠ 0 then
      match PutPODIOData w fac store with
      | (Except.ok _, store1) => processFactories w rest store1
      | (Except.error msg, store1) =>
        let r := processFactories w rest store1
        (r.1, (msg ++ " : " ++ fac.objectName) :: r.2)
    else processFactories w rest store

/-- Result of one `Process` call: the new writer state, the store left
attached to the event (present exactly when one was attached on entry,
holding the contents swapped back at lines 396-399), and the error log. -/
structure ProcessResult where
  writer : WriterState
  attached : Option EICEventStore
  errlog : List String
deriving Repr, DecidableEq

/-- `EICRootWriter::Process` (lines 354-400): swap in an attached store if
present, materialize every factory with objects, synchronize branches,
fill the trees, and swap the store back. -/
def Process (w : WriterState) (facs : List JFactory) (attached : Option EICEventStore) :
    ProcessResult :=
  let store0 := match attached with | some es => es | none => []
  let r := processFactories w facs store0
  let w1 := fillTree (ResetBranches w r.1)
  { writer := w1,
    attached := match attached with | some _ => some r.1 | none => none,
    errlog := r.2 }

/-- A whole job: fold `Process` over a list of events, each given as its
factory list and optionally an already-attached event store. -/
def runJob (w : WriterState) : List (List JFactory × Option EICEventStore) → WriterState
  | [] => w
  | ev :: rest => runJob (Process w ev.1 ev.2).writer rest

/-- The writer state right after `Init` with the given filter sets. -/
def initialWriter (inc exc : List String) : WriterState :=
  ⟨inc, exc, 0, [], []⟩

-- A quick sanity example of materialization.
example :
    PutPODIODataT (initialWriter [] []) 3 "vector<X>"
      ⟨"", "X", 3, [5, 7], none, none⟩ [] =
    (Except.ok "X", [⟨"X", "vector<X>", [5, 7]⟩]) := by rfl

/-! ### Lemmas about store lookups -/

theorem lookupStore_replaceFirst (s : EICEventStore) (nm : String) (vals : List Nat)
    (nm' : String) :
    lookupStore (replaceFirst s nm vals) nm' =
      if nm' = nm then (lookupStore s nm).map (fun _ => vals) else lookupStore s nm' := by
  induction s with
  | nil => simp [replaceFirst, lookupStore]
  | cons dv rest ih =>
    by_cases h : dv.name = nm
    · subst h
      by_cases h' : nm' = dv.name
      · subst h'; simp [replaceFirst, lookupStore]
      · simp [replaceFirst, lookupStore, h', Ne.symm h']
    · by_cases h' : dv.name = nm'
      · subst h'
        simp [replaceFirst, lookupStore, h, ih, Ne.symm h]
      · simp [replaceFirst, lookupStore, h, h', ih]

theorem lookupStore_append (s t : EICEventStore) (nm : String) :
    lookupStore (s ++ t) nm =
      match lookupStore s nm with
      | some v => some v
      | none => lookupStore t nm := by
  induction s with
  | nil => simp [lookupStore]
  | cons dv rest ih =>
    by_cases h : dv.name = nm <;> simp [lookupStore, h, ih]

/-- The pointwise effect of one `PutPODIOData` call on the store, seen
through `lookupStore` at a fixed name. -/
def facEffect (w : WriterState) (fac : JFactory) (nm : String)
    (x : Option (List Nat)) : Option (List Nat) :=
  match fac.recordType with
  | none => x
  | some (tc, cls) =>
    let cn := DeriveCollectionName tc cls fac
    if cn ∈ GetExcludeCollections w then x
    else if GetExcludeCollections w ≠ [] ∧ cn ∉ GetExcludeCollections w then x
    else if nm = cn then
      match fac.convError with
      | some _ => match x with | none => some [] | some v => some v
      | none => some fac.objects
    else x

theorem lookupStore_PutPODIOData (w : WriterState) (fac : JFactory)
    (s : EICEventStore) (nm : String) :
    lookupStore (PutPODIOData w fac s).2 nm = facEffect w fac nm (lookupStore s nm) := by
  unfold PutPODIOData facEffect
  cases hrt : fac.recordType with
  | none => rfl
  | some p =>
    obtain ⟨tc, cls⟩ := p
    unfold PutPODIODataT
    set cn := DeriveCollectionName tc cls fac with hcn
    by_cases h1 : cn ∈ GetExcludeCollections w
    · simp [h1]
    · by_cases h2 : GetExcludeCollections w ≠ [] ∧ cn ∉ GetExcludeCollections w
      · simp [h1, h2]
      · have hE : GetExcludeCollections w = [] := by
          by_contra hne
          exact h2 ⟨hne, h1⟩
        cases hx : lookupStore s cn with
        | some v =>
          cases he : fac.convError with
          | some msg =>
            by_cases hnm : nm = cn
            · subst hnm; simp [hE, hx, he]
            · simp [hE, hx, he, hnm]
          | none =>
            by_cases hnm : nm = cn
            · subst hnm; simp [hE, hx, he, lookupStore_replaceFirst]
            · simp [hE, hx, he, hnm, lookupStore_replaceFirst]
        | none =>
          cases he : fac.convError with
          | some msg =>
            by_cases hnm : nm = cn
            · subst hnm; simp [hE, hx, he, lookupStore_append, lookupStore]
            · cases hy : lookupStore s nm with
              | some v =>
                simp [hE, hx, he, hnm, hy, lookupStore_append]
              | none =>
                simp [hE, hx, he, hnm, hy, lookupStore_append, lookupStore,
                  Ne.symm hnm]
          | none =>
            by_cases hnm : nm = cn
            · subst hnm
              simp [hE, hx, he, lookupStore_replaceFirst, lookupStore_append,
                lookupStore]
            · cases hy : lookupStore s nm with
              | some v =>
                simp [hE, hx, he, hnm, hy, lookupStore_replaceFirst,
                  lookupStore_append]
              | none =>
                simp [hE, hx, he, hnm, hy, lookupStore_replaceFirst,
                  lookupStore_append, lookupStore, Ne.symm hnm]

/-- The pointwise effect of one factory-loop iteration of `Process`,
including the `GetNumObjects() != 0` gate at line 374. -/
def stepEffect (w : WriterState) (fac : JFactory) (nm : String)
    (x : Option (List Nat)) : Option (List Nat) :=
  if fac.objects.length ≠ 0 then facEffect w fac nm x else x

/-- The pointwise effect of the whole factory loop. -/
def facsEffect (w : WriterState) : List JFactory → String → Option (List Nat) →
    Option (List Nat)
  | [], _, x => x
  | fac :: rest, nm, x => facsEffect w rest nm (stepEffect w fac nm x)

theorem processFactories_cons_store (w : WriterState) (fac : JFactory)
    (rest : List JFactory) (s : EICEventStore) :
    (processFactories w (fac :: rest) s).1 =
      if fac.objects.length ≠ 0 then
        (processFactories w rest (PutPODIOData w fac s).2).1
      else (processFactories w rest s).1 := by
  by_cases h : fac.objects.length ≠ 0
  · rcases hp : PutPODIOData w fac s with ⟨r, store1⟩
    cases r <;> simp [processFactories, h, hp]
  · simp [processFactories, h]

theorem lookupStore_processFactories (w : WriterState) (facs : List JFactory)
    (s : EICEventStore) (nm : String) :
    lookupStore (processFactories w facs s).1 nm =
      facsEffect w facs nm (lookupStore s nm) := by
  induction facs generalizing s with
  | nil => simp [processFactories, facsEffect]
  | cons fac rest ih =>
    rw [processFactories_cons_store]
    by_cases h : fac.objects.length ≠ 0
    · rw [if_pos h, ih]
      simp [facsEffect, stepEffect, h, lookupStore_PutPODIOData]
    · rw [if_neg h, ih]
      simp [facsEffect, stepEffect, h]

theorem stepEffect_tri (w : WriterState) (fac : JFactory) (nm : String) :
    (∀ x, stepEffect w fac nm x = x) ∨
    (∃ v, ∀ x, stepEffect w fac nm x = some v) ∨
    (∀ x, stepEffect w fac nm x = some (x.getD [])) := by
  by_cases hg : fac.objects.length ≠ 0
  · cases hrt : fac.recordType with
    | none => exact Or.inl fun x => by simp [stepEffect, facEffect, hg, hrt]
    | some p =>
      obtain ⟨tc, cls⟩ := p
      by_cases h1 : DeriveCollectionName tc cls fac ∈ GetExcludeCollections w
      · exact Or.inl fun x => by simp [stepEffect, facEffect, hg, hrt, h1]
      · by_cases h2 : GetExcludeCollections w ≠ [] ∧
            DeriveCollectionName tc cls fac ∉ GetExcludeCollections w
        · exact Or.inl fun x => by simp [stepEffect, facEffect, hg, hrt, h1, h2]
        · have hE : GetExcludeCollections w = [] := by
            by_contra hne
            exact h2 ⟨hne, h1⟩
          by_cases hnm : nm = DeriveCollectionName tc cls fac
          · cases he : fac.convError with
            | some msg =>
              refine Or.inr (Or.inr fun x => ?_)
              cases x <;> simp [stepEffect, facEffect, hg, hrt, hE, hnm, he]
            | none =>
              exact Or.inr (Or.inl ⟨fac.objects, fun x => by
                simp [stepEffect, facEffect, hg, hrt, hE, hnm, he]⟩)
          · exact Or.inl fun x => by simp [stepEffect, facEffect, hg, hrt, hE, hnm]
  · exact Or.inl fun x => by simp [stepEffect, hg]

theorem stepEffect_isSome (w : WriterState) (fac : JFactory) (nm : String)
    (x : Option (List Nat)) (hx : x.isSome) : (stepEffect w fac nm x).isSome := by
  rcases stepEffect_tri w fac nm with h | ⟨v, h⟩ | h
  · rw [h]; exact hx
  · rw [h]; rfl
  · rw [h]; rfl

theorem facsEffect_isSome (w : WriterState) (facs : List JFactory) (nm : String)
    (x : Option (List Nat)) (hx : x.isSome) : (facsEffect w facs nm x).isSome := by
  induction facs generalizing x with
  | nil => exact hx
  | cons fac rest ih => exact ih _ (stepEffect_isSome w fac nm x hx)

theorem facsEffect_idem (w : WriterState) (facs : List JFactory) (nm : String) :
    ∀ x, facsEffect w facs nm (facsEffect w facs nm x) = facsEffect w facs nm x := by
  induction facs with
  | nil => intro x; rfl
  | cons fac rest ih =>
    intro x
    rcases stepEffect_tri w fac nm with h | ⟨v, h⟩ | h
    · simp only [facsEffect, h]
      exact ih _
    · simp only [facsEffect, h]
    · simp only [facsEffect, h]
      have hy : (some (x.getD []) : Option (List Nat)).isSome := rfl
      have hE := facsEffect_isSome w rest nm _ hy
      obtain ⟨u, hu⟩ := Option.isSome_iff_exists.mp hE
      rw [hu]
      simpa [hu] using ih (some (x.getD []))

/-! ### Frame lemmas: which parts of the writer state each operation touches -/

theorem ResetBranchesStep_exclude (w : WriterState) (dv : DataVector) :
    (ResetBranchesStep w dv).m_OUTPUT_EXCLUDE_COLLECTIONS =
      w.m_OUTPUT_EXCLUDE_COLLECTIONS := by
  unfold ResetBranchesStep CreateBranch
  split
  · rfl
  · split
    · rfl
    · split <;> rfl

theorem ResetBranchesStep_include (w : WriterState) (dv : DataVector) :
    (ResetBranchesStep w dv).m_OUTPUT_INCLUDE_COLLECTIONS =
      w.m_OUTPUT_INCLUDE_COLLECTIONS := by
  unfold ResetBranchesStep CreateBranch
  split
  · rfl
  · split
    · rfl
    · split <;> rfl

theorem ResetBranchesStep_entries (w : WriterState) (dv : DataVector) :
    (ResetBranchesStep w dv).entries = w.entries := by
  unfold ResetBranchesStep CreateBranch
  split
  · rfl
  · split
    · rfl
    · split <;> rfl

theorem ResetBranches_cons (w : WriterState) (dv : DataVector) (rest : EICEventStore) :
    ResetBranches w (dv :: rest) = ResetBranches (ResetBranchesStep w dv) rest := rfl

theorem ResetBranches_exclude (store : EICEventStore) (w : WriterState) :
    (ResetBranches w store).m_OUTPUT_EXCLUDE_COLLECTIONS =
      w.m_OUTPUT_EXCLUDE_COLLECTIONS := by
  induction store generalizing w with
  | nil => rfl
  | cons dv rest ih =>
    rw [ResetBranches_cons, ih, ResetBranchesStep_exclude]

theorem ResetBranches_include (store : EICEventStore) (w : WriterState) :
    (ResetBranches w store).m_OUTPUT_INCLUDE_COLLECTIONS =
      w.m_OUTPUT_INCLUDE_COLLECTIONS := by
  induction store generalizing w with
  | nil => rfl
  | cons dv rest ih =>
    rw [ResetBranches_cons, ih, ResetBranchesStep_include]

theorem Process_exclude (w : WriterState) (facs : List JFactory)
    (att : Option EICEventStore) :
    (Process w facs att).writer.m_OUTPUT_EXCLUDE_COLLECTIONS =
      w.m_OUTPUT_EXCLUDE_COLLECTIONS :=
  ResetBranches_exclude _ _

theorem Process_include (w : WriterState) (facs : List JFactory)
    (att : Option EICEventStore) :
    (Process w facs att).writer.m_OUTPUT_INCLUDE_COLLECTIONS =
      w.m_OUTPUT_INCLUDE_COLLECTIONS :=
  ResetBranches_include _ _

/-! ### The factory loop reads only the exclude set of the writer state -/

theorem PutPODIOData_congr (w w' : WriterState) (fac : JFactory)
    (s : EICEventStore)
    (h : w'.m_OUTPUT_EXCLUDE_COLLECTIONS = w.m_OUTPUT_EXCLUDE_COLLECTIONS) :
    PutPODIOData w' fac s = PutPODIOData w fac s := by
  unfold PutPODIOData PutPODIODataT GetExcludeCollections
  rw [h]

theorem processFactories_congr (w w' : WriterState) (facs : List JFactory)
    (s : EICEventStore)
    (h : w'.m_OUTPUT_EXCLUDE_COLLECTIONS = w.m_OUTPUT_EXCLUDE_COLLECTIONS) :
    processFactories w' facs s = processFactories w facs s := by
  induction facs generalizing s with
  | nil => rfl
  | cons fac rest ih =>
    unfold processFactories
    rw [PutPODIOData_congr w w' fac s h]
    rcases hp : PutPODIOData w fac s with ⟨r, store1⟩
    cases r <;> simp [ih]

/-! ### Claim theorems -/

/-- Modelled from the spec (§4.1 rule table), for comparison with the
implementation: empty tag gives the producer's declared output type name;
otherwise the tag exactly when the producer's runtime object type equals the
target record type; otherwise the declared output type name. -/
def specResolveColumnName (Tcode : Nat) (fac : JFactory) : String :=
  if fac.tag = "" then fac.objectName
  else if fac.objectType = Tcode then fac.tag
  else fac.objectName

/-- C3: `DeriveCollectionName` implements exactly the total deterministic
resolution rule of the spec: empty tag gives the producer's declared output
type name; a non-empty tag is used exactly when the runtime object type
equals the target type `T`; otherwise the declared output type name is used
and the tag is ignored. -/
theorem deriveCollectionName_matches_spec (Tcode : Nat) (edm : String) (fac : JFactory) :
    DeriveCollectionName Tcode edm fac = specResolveColumnName Tcode fac := by
  unfold DeriveCollectionName specResolveColumnName
  by_cases h : fac.tag = ""
  · simp [h]
  · by_cases h2 : Tcode = fac.objectType
    · simp [h, h2]
    · have h3 : ¬fac.objectType = Tcode := fun hc => h2 hc.symm
      simp [h, h2, h3]

/-- C2: failing input for the include-set rule of the Column Materializer.
The include set is `["A"]` (non-empty) and does not contain the resolved
column name `"B"`, so by the claim the materialization must be skipped with
no side effects; instead `PutPODIODataT` materializes the collection and
mutates the store, because line 100 of the source reads
`GetExcludeCollections()` where `GetIncludeCollections()` was intended. -/
theorem putPODIOData_ignores_include_set :
    GetIncludeCollections (initialWriter ["A"] []) ≠ [] ∧
    "B" ∉ GetIncludeCollections (initialWriter ["A"] []) ∧
    PutPODIODataT (initialWriter ["A"] []) 0 "vector<B>"
        ⟨"", "B", 0, [7], none, none⟩ [] =
      (Except.ok "B", [⟨"B", "vector<B>", [7]⟩]) := by
  exact ⟨by decide, by decide, by rfl⟩

/-- C6: a column name present in both the include set and the exclude set is
excluded everywhere: `PutPODIODataT` for a factory resolving to that name
returns "skipped" with the store untouched, and the `ResetBranches` loop
iteration for a buffer of that name leaves the writer state (branches and
collection IDs included) exactly unchanged. -/
theorem both_sets_means_excluded (w : WriterState) (nm : String)
    (_hinc : nm ∈ w.m_OUTPUT_INCLUDE_COLLECTIONS)
    (hexc : nm ∈ w.m_OUTPUT_EXCLUDE_COLLECTIONS)
    (Tcode : Nat) (cls : String) (fac : JFactory) (store : EICEventStore)
    (hname : DeriveCollectionName Tcode cls fac = nm)
    (dv : DataVector) (hdv : dv.name = nm) :
    PutPODIODataT w Tcode cls fac store = (Except.ok "", store) ∧
    ResetBranchesStep w dv = w := by
  constructor
  · simp [PutPODIODataT, GetExcludeCollections, hname, hexc]
  · simp [ResetBranchesStep, hdv, hexc]

theorem both_sets_means_excluded_witness :
    PutPODIODataT (initialWriter ["X"] ["X"]) 0 "vector<X>"
        ⟨"", "X", 0, [1], none, none⟩ [] = (Except.ok "", []) ∧
    ResetBranchesStep (initialWriter ["X"] ["X"]) ⟨"X", "vector<X>", []⟩ =
      initialWriter ["X"] ["X"] :=
  both_sets_means_excluded (initialWriter ["X"] ["X"]) "X" (by decide) (by decide)
    0 "vector<X>" ⟨"", "X", 0, [1], none, none⟩ [] (by rfl)
    ⟨"X", "vector<X>", []⟩ (by rfl)

/-- C8: whenever the materializer's collection filtering rejects the
resolved column name (either early-return condition of lines 95-101), the
call reports the empty ("skipped") name and the Event Store is exactly as it
was before the call: no buffer is added and no buffer's contents change. -/
theorem skip_has_no_side_effects (w : WriterState) (Tcode : Nat) (cls : String)
    (fac : JFactory) (store : EICEventStore)
    (hskip : DeriveCollectionName Tcode cls fac ∈ GetExcludeCollections w ∨
      (GetExcludeCollections w ≠ [] ∧
        DeriveCollectionName Tcode cls fac ∉ GetExcludeCollections w)) :
    PutPODIODataT w Tcode cls fac store = (Except.ok "", store) := by
  rcases hskip with h | h
  · simp [PutPODIODataT, h]
  · simp [PutPODIODataT, h.1, h.2]

theorem skip_has_no_side_effects_witness :
    PutPODIODataT (initialWriter [] ["Y"]) 0 "vector<Y>"
        ⟨"", "Y", 0, [9], none, none⟩ [⟨"Z", "vector<Z>", [3]⟩] =
      (Except.ok "", [⟨"Z", "vector<Z>", [3]⟩]) :=
  skip_has_no_side_effects (initialWriter [] ["Y"]) 0 "vector<Y>"
    ⟨"", "Y", 0, [9], none, none⟩ [⟨"Z", "vector<Z>", [3]⟩] (Or.inl (by decide))

/-- C4: when materialization proceeds (the filters pass and the conversion
succeeds), the resolved column's buffer afterwards holds exactly the native
values of the records the factory holds for this event — a full replacement
independent of any prior contents, so the buffer's element count equals this
event's record count — and every other buffer is untouched. -/
theorem materialization_replaces_buffer (w : WriterState) (Tcode : Nat)
    (cls : String) (fac : JFactory) (store : EICEventStore) (cn : String)
    (hcn : DeriveCollectionName Tcode cls fac = cn)
    (hpass : GetExcludeCollections w = [])
    (hok : fac.convError = none) :
    (PutPODIODataT w Tcode cls fac store).1 = Except.ok cn ∧
    lookupStore (PutPODIODataT w Tcode cls fac store).2 cn = some fac.objects ∧
    ∀ nm, nm ≠ cn →
      lookupStore (PutPODIODataT w Tcode cls fac store).2 nm = lookupStore store nm := by
  subst hcn
  cases hx : lookupStore store (DeriveCollectionName Tcode cls fac) with
  | some v =>
    refine ⟨by simp [PutPODIODataT, hpass, hok, hx], ?_, ?_⟩
    · simp [PutPODIODataT, hpass, hok, hx, lookupStore_replaceFirst]
    · intro nm hnm
      simp [PutPODIODataT, hpass, hok, hx, lookupStore_replaceFirst, hnm]
  | none =>
    refine ⟨by simp [PutPODIODataT, hpass, hok, hx], ?_, ?_⟩
    · simp [PutPODIODataT, hpass, hok, hx, lookupStore_replaceFirst,
        lookupStore_append, lookupStore]
    · intro nm hnm
      cases hy : lookupStore store nm with
      | some u =>
        simp [PutPODIODataT, hpass, hok, hx, hy, hnm, lookupStore_replaceFirst,
          lookupStore_append]
      | none =>
        simp [PutPODIODataT, hpass, hok, hx, hy, hnm, lookupStore_replaceFirst,
          lookupStore_append, lookupStore, Ne.symm hnm]

theorem materialization_replaces_buffer_witness :
    (PutPODIODataT (initialWriter [] []) 0 "vector<X>"
        ⟨"", "X", 0, [5, 7], none, none⟩
        [⟨"X", "vector<X>", [1, 2, 3]⟩, ⟨"Y", "vector<Y>", [2]⟩]).1 =
      Except.ok "X" ∧
    lookupStore (PutPODIODataT (initialWriter [] []) 0 "vector<X>"
        ⟨"", "X", 0, [5, 7], none, none⟩
        [⟨"X", "vector<X>", [1, 2, 3]⟩, ⟨"Y", "vector<Y>", [2]⟩]).2 "X" =
      some [5, 7] ∧
    lookupStore (PutPODIODataT (initialWriter [] []) 0 "vector<X>"
        ⟨"", "X", 0, [5, 7], none, none⟩
        [⟨"X", "vector<X>", [1, 2, 3]⟩, ⟨"Y", "vector<Y>", [2]⟩]).2 "Y" =
      some [2] := by
  have h := materialization_replaces_buffer (initialWriter [] []) 0 "vector<X>"
    ⟨"", "X", 0, [5, 7], none, none⟩
    [⟨"X", "vector<X>", [1, 2, 3]⟩, ⟨"Y", "vector<Y>", [2]⟩] "X" rfl rfl rfl
  exact ⟨h.1, h.2.1, by rw [h.2.2 "Y" (by decide)]; rfl⟩

theorem ResetBranches_entries (store : EICEventStore) (w : WriterState) :
    (ResetBranches w store).entries = w.entries := by
  induction store generalizing w with
  | nil => rfl
  | cons dv rest ih =>
    rw [ResetBranches_cons, ih, ResetBranchesStep_entries]

theorem Process_entries (w : WriterState) (facs : List JFactory)
    (att : Option EICEventStore) :
    (Process w facs att).writer.entries = w.entries + 1 := by
  simp [Process, fillTree, ResetBranches_entries]

/-- C7: a conversion error raised while materializing one producer is caught
by `Process`: it is logged as the exception text followed by that producer's
declared object name, the producer's column receives no values for this
event (at most an empty buffer is created when none existed), the remaining
producers are processed exactly as they would have been, and the event is
still flushed — the events tree gains exactly one entry. -/
theorem conversion_error_is_recovered (w : WriterState) (bad : JFactory)
    (rest : List JFactory) (s : EICEventStore) (tc : Nat) (cls cn msg : String)
    (hmap : bad.recordType = some (tc, cls))
    (herr : bad.convError = some msg)
    (hobj : bad.objects.length ≠ 0)
    (hcn : DeriveCollectionName tc cls bad = cn)
    (hpass : GetExcludeCollections w = []) :
    ∃ s₁,
      processFactories w (bad :: rest) s =
        ((processFactories w rest s₁).1,
          (msg ++ " : " ++ bad.objectName) :: (processFactories w rest s₁).2) ∧
      (∀ nm, nm ≠ cn → lookupStore s₁ nm = lookupStore s nm) ∧
      (lookupStore s₁ cn = lookupStore s cn ∨
        (lookupStore s cn = none ∧ lookupStore s₁ cn = some [])) ∧
      ∀ att, (Process w (bad :: rest) att).writer.entries = w.entries + 1 := by
  subst hcn
  refine ⟨(PutPODIOData w bad s).2, ?_, ?_, ?_, fun att => Process_entries _ _ _⟩
  · have hput : (PutPODIOData w bad s).1 = Except.error msg := by
      cases hx : lookupStore s (DeriveCollectionName tc cls bad) <;>
        simp [PutPODIOData, PutPODIODataT, hmap, herr, hpass, hx]
    rcases hp : PutPODIOData w bad s with ⟨r, store1⟩
    rw [hp] at hput
    simp only at hput
    subst hput
    simp [processFactories, hobj, hp]
  · intro nm hnm
    cases hx : lookupStore s (DeriveCollectionName tc cls bad) with
    | some v => simp [PutPODIOData, PutPODIODataT, hmap, herr, hpass, hx]
    | none =>
      cases hy : lookupStore s nm with
      | some u =>
        simp [PutPODIOData, PutPODIODataT, hmap, herr, hpass, hx, hy,
          lookupStore_append]
      | none =>
        simp [PutPODIOData, PutPODIODataT, hmap, herr, hpass, hx, hy,
          lookupStore_append, lookupStore, Ne.symm hnm]
  · cases hx : lookupStore s (DeriveCollectionName tc cls bad) with
    | some v =>
      exact Or.inl (by simp [PutPODIOData, PutPODIODataT, hmap, herr, hpass, hx])
    | none =>
      refine Or.inr ⟨rfl, ?_⟩
      simp [PutPODIOData, PutPODIODataT, hmap, herr, hpass, hx,
        lookupStore_append, lookupStore]

theorem conversion_error_is_recovered_witness :
    ∃ s₁,
      processFactories (initialWriter [] []) (⟨"", "B", 0, [4], some (0, "vector<B>"), some "boom"⟩ :: [⟨"", "G", 1, [6], some (1, "vector<G>"), none⟩]) [] =
        ((processFactories (initialWriter [] []) [⟨"", "G", 1, [6], some (1, "vector<G>"), none⟩] s₁).1,
          ("boom" ++ " : " ++ "B") :: (processFactories (initialWriter [] []) [⟨"", "G", 1, [6], some (1, "vector<G>"), none⟩] s₁).2) ∧
      (∀ nm, nm ≠ "B" → lookupStore s₁ nm = lookupStore [] nm) ∧
      (lookupStore s₁ "B" = lookupStore [] "B" ∨
        (lookupStore ([] : EICEventStore) "B" = none ∧ lookupStore s₁ "B" = some [])) ∧
      ∀ att, (Process (initialWriter [] []) (⟨"", "B", 0, [4], some (0, "vector<B>"), some "boom"⟩ :: [⟨"", "G", 1, [6], some (1, "vector<G>"), none⟩]) att).writer.entries =
        (initialWriter [] []).entries + 1 :=
  conversion_error_is_recovered (initialWriter [] [])
    ⟨"", "B", 0, [4], some (0, "vector<B>"), some "boom"⟩
    [⟨"", "G", 1, [6], some (1, "vector<G>"), none⟩] [] 0 "vector<B>" "B" "boom"
    (by rfl) (by rfl) (by decide) (by rfl) (by rfl)

theorem ResetBranchesStep_branches (w : WriterState) (dv : DataVector) :
    (ResetBranchesStep w dv).branches = w.branches ∨
    (ResetBranchesStep w dv).branches =
      w.branches ++ [⟨dv.name, dv.className, w.entries⟩] := by
  unfold ResetBranchesStep CreateBranch
  split
  · exact Or.inl rfl
  · split
    · exact Or.inl rfl
    · by_cases hb : branchExists w dv.name
      · exact Or.inl (by simp [hb])
      · exact Or.inr (by simp [hb])

theorem ResetBranchesStep_aligned (w : WriterState) (dv : DataVector)
    (h : ∀ b ∈ w.branches, b.rows = w.entries) :
    ∀ b ∈ (ResetBranchesStep w dv).branches,
      b.rows = (ResetBranchesStep w dv).entries := by
  intro b hb
  rw [ResetBranchesStep_entries]
  rcases ResetBranchesStep_branches w dv with hB | hB
  · rw [hB] at hb; exact h b hb
  · rw [hB] at hb
    rcases List.mem_append.mp hb with h1 | h1
    · exact h b h1
    · obtain rfl := List.mem_singleton.mp h1
      rfl

theorem ResetBranches_aligned (store : EICEventStore) (w : WriterState)
    (h : ∀ b ∈ w.branches, b.rows = w.entries) :
    ∀ b ∈ (ResetBranches w store).branches,
      b.rows = (ResetBranches w store).entries := by
  induction store generalizing w with
  | nil => exact h
  | cons dv rest ih =>
    rw [ResetBranches_cons]
    exact ih _ (ResetBranchesStep_aligned w dv h)

theorem fillTree_aligned (w : WriterState)
    (h : ∀ b ∈ w.branches, b.rows = w.entries) :
    ∀ b ∈ (fillTree w).branches, b.rows = (fillTree w).entries := by
  intro b hb
  simp only [fillTree, List.mem_map] at hb
  obtain ⟨a, ha, rfl⟩ := hb
  simp [fillTree, h a ha]

theorem Process_aligned (w : WriterState) (facs : List JFactory)
    (att : Option EICEventStore)
    (h : ∀ b ∈ w.branches, b.rows = w.entries) :
    ∀ b ∈ (Process w facs att).writer.branches,
      b.rows = (Process w facs att).writer.entries :=
  fillTree_aligned _ (ResetBranches_aligned _ _ h)

theorem runJob_aligned (events : List (List JFactory × Option EICEventStore))
    (w : WriterState) (h : ∀ b ∈ w.branches, b.rows = w.entries) :
    ∀ b ∈ (runJob w events).branches, b.rows = (runJob w events).entries := by
  induction events generalizing w with
  | nil => exact h
  | cons ev rest ih => exact ih _ (Process_aligned w ev.1 ev.2 h)

theorem runJob_entries (events : List (List JFactory × Option EICEventStore))
    (w : WriterState) : (runJob w events).entries = w.entries + events.length := by
  induction events generalizing w with
  | nil => rfl
  | cons ev rest ih =>
    show (runJob (Process w ev.1 ev.2).writer rest).entries = w.entries + (ev :: rest).length
    rw [ih, Process_entries]
    simp [Nat.add_assoc, Nat.add_comm 1 rest.length]

/-- C1: over any whole job of `N` processed events, every branch of the
events tree at finalization has exactly `N` rows: a branch created after `k`
events is created with `k` backfilled placeholder rows (`CreateBranch`,
lines 259-269) and then gains one row per tree fill, so its row count always
equals the tree's entry count. -/
theorem backfill_row_alignment (inc exc : List String)
    (events : List (List JFactory × Option EICEventStore)) :
    ∀ b ∈ (runJob (initialWriter inc exc) events).branches,
      b.rows = events.length := by
  intro b hb
  have h1 := runJob_aligned events (initialWriter inc exc)
    (by intro b hb; cases hb) b hb
  rw [h1, runJob_entries]
  simp [initialWriter]

theorem backfill_row_alignment_witness :
    (⟨"X", "vector<X>", 2⟩ : Branch) ∈
      (runJob (initialWriter [] [])
        ([([], none), ([⟨"", "X", 0, [5], some (0, "vector<X>"), none⟩], none)] :
          List (List JFactory × Option EICEventStore))).branches ∧
    Branch.rows ⟨"X", "vector<X>", 2⟩ =
      ([([], none), ([⟨"", "X", 0, [5], some (0, "vector<X>"), none⟩], none)] :
        List (List JFactory × Option EICEventStore)).length :=
  ⟨by decide,
    backfill_row_alignment [] []
      [([], none), ([⟨"", "X", 0, [5], some (0, "vector<X>"), none⟩], none)]
      ⟨"X", "vector<X>", 2⟩ (by decide)⟩

/-- C5: when an `EICEventStore` is attached to the event, `Process` borrows
it by swapping (lines 363-364) and swaps it back after the flush
(lines 396-399), so the attached store afterwards holds exactly the
materialized data; running `Process` a second time over the same factories
with that store attached leaves every column's contents exactly as after the
single pass — no rows are duplicated or lost. -/
theorem process_swap_back_idempotent (w : WriterState) (facs : List JFactory)
    (es : EICEventStore) (nm : String) (s₁ s₂ : EICEventStore)
    (h1 : (Process w facs (some es)).attached = some s₁)
    (h2 : (Process (Process w facs (some es)).writer facs (some s₁)).attached = some s₂) :
    s₁ = (processFactories w facs es).1 ∧
    lookupStore s₂ nm = lookupStore s₁ nm := by
  have e1 : s₁ = (processFactories w facs es).1 := by
    have hd : (Process w facs (some es)).attached =
        some (processFactories w facs es).1 := rfl
    rw [hd] at h1
    exact (Option.some.inj h1).symm
  have e2 : s₂ = (processFactories (Process w facs (some es)).writer facs s₁).1 := by
    have hd : (Process (Process w facs (some es)).writer facs (some s₁)).attached =
        some (processFactories (Process w facs (some es)).writer facs s₁).1 := rfl
    rw [hd] at h2
    exact (Option.some.inj h2).symm
  refine ⟨e1, ?_⟩
  rw [e2, processFactories_congr w (Process w facs (some es)).writer facs s₁
    (Process_exclude w facs (some es))]
  rw [lookupStore_processFactories, e1, lookupStore_processFactories]
  exact facsEffect_idem w facs nm _

theorem process_swap_back_idempotent_witness :
    ([⟨"X", "vector<X>", [5, 7]⟩] : EICEventStore) =
      (processFactories (initialWriter [] [])
        [⟨"", "X", 0, [5, 7], some (0, "vector<X>"), none⟩]
        [⟨"X", "vector<X>", [9]⟩]).1 ∧
    lookupStore
        (Process
          (Process (initialWriter [] [])
            [⟨"", "X", 0, [5, 7], some (0, "vector<X>"), none⟩]
            (some [⟨"X", "vector<X>", [9]⟩])).writer
          [⟨"", "X", 0, [5, 7], some (0, "vector<X>"), none⟩]
          (some [⟨"X", "vector<X>", [5, 7]⟩])).attached.iget "X" =
      lookupStore [⟨"X", "vector<X>", [5, 7]⟩] "X" := by
  have h := process_swap_back_idempotent (initialWriter [] [])
    [⟨"", "X", 0, [5, 7], some (0, "vector<X>"), none⟩]
    [⟨"X", "vector<X>", [9]⟩] "X"
    [⟨"X", "vector<X>", [5, 7]⟩]
    ((Process
        (Process (initialWriter [] [])
          [⟨"", "X", 0, [5, 7], some (0, "vector<X>"), none⟩]
          (some [⟨"X", "vector<X>", [9]⟩])).writer
        [⟨"", "X", 0, [5, 7], some (0, "vector<X>"), none⟩]
        (some [⟨"X", "vector<X>", [5, 7]⟩])).attached.iget)
    (by rfl) (by rfl)
  exact ⟨h.1, h.2⟩

/-- C9: registration in the Column Registry is idempotent — registering a
name already present leaves the registry unchanged and its identity
unchanged — registering any other name never changes an existing name's
identity, and a fresh name receives the next identity in first-seen order
(the current registry size). -/
theorem registry_registration_idempotent (t : List String) (nm other fresh : String)
    (h : nm ∈ t) (hf : fresh ∉ t) :
    registerCollection t nm = t ∧
    collectionID (registerCollection t nm) nm = collectionID t nm ∧
    collectionID (registerCollection t other) nm = collectionID t nm ∧
    collectionID (registerCollection t fresh) fresh = t.length := by
  refine ⟨by simp [registerCollection, h], ?_, ?_, ?_⟩
  · simp [registerCollection, h]
  · unfold registerCollection collectionID
    by_cases ho : other ∈ t
    · simp [ho]
    · simp [ho, List.indexOf_append_of_mem h]
  · unfold registerCollection collectionID
    simp [hf, List.indexOf_append_of_not_mem hf, List.indexOf_cons_self]

theorem registry_registration_idempotent_witness :
    registerCollection ["A", "B"] "B" = ["A", "B"] ∧
    collectionID (registerCollection ["A", "B"] "B") "B" =
      collectionID ["A", "B"] "B" ∧
    collectionID (registerCollection ["A", "B"] "C") "B" =
      collectionID ["A", "B"] "B" ∧
    collectionID (registerCollection ["A", "B"] "C") "C" = ["A", "B"].length :=
  registry_registration_idempotent ["A", "B"] "B" "C" "C" (by decide) (by decide)

/-- The comma-splitting loop of `Init` (lines 188-195 and 200-207): the
`while (ss.good()) getline(ss, substr, ',')` loop over a non-empty string
yields the pieces between commas, including a final empty piece when the
string ends in a comma (the last `getline` extracts nothing at end of
stream but its cleared string is still inserted). -/
def splitCommas : List Char → List (List Char)
  | [] => [[]]
  | c :: rest =>
    if c = ',' then [] :: splitCommas rest
    else
      match splitCommas rest with
      | [] => [[c]]
      | p :: ps => (c :: p) :: ps

/-- The filter set built by `Init` from a comma-separated configuration
string: empty string means empty set (the parsing is guarded by
`!…empty()`), otherwise the set of comma-separated pieces. -/
def parseCollections (s : String) : List String :=
  if s = "" then [] else (splitCommas s.data).map (fun p => String.mk p)

theorem splitCommas_ne_nil (cs : List Char) : splitCommas cs ≠ [] := by
  cases cs with
  | nil => simp [splitCommas]
  | cons c rest =>
    by_cases h : c = ','
    · simp [splitCommas, h]
    · rcases hr : splitCommas rest with _ | ⟨p, ps⟩ <;> simp [splitCommas, h, hr]

theorem splitCommas_tail_mem (t : List Char) (h : [] ∈ (splitCommas t).tail) :
    ∀ a : List Char, [] ∈ (splitCommas (a ++ t)).tail := by
  intro a
  induction a with
  | nil => exact h
  | cons c a' ih =>
    by_cases hc : c = ','
    · subst hc
      show [] ∈ (splitCommas (',' :: (a' ++ t))).tail
      simp only [splitCommas, if_pos rfl, List.tail_cons]
      exact List.mem_of_mem_tail ih
    · show [] ∈ (splitCommas (c :: (a' ++ t))).tail
      rcases hsp : splitCommas (a' ++ t) with _ | ⟨p, ps⟩
      · exact absurd hsp (splitCommas_ne_nil _)
      · simp only [splitCommas, if_neg hc, hsp, List.tail_cons]
        rw [hsp] at ih
        exact ih

/-- C10: if a non-empty include/exclude configuration string ends in a comma
or contains two consecutive commas, `Init`'s splitting loop inserts the
empty string into the filter set; used as the include set this makes the set
non-empty, so the `ResetBranches` filter then skips every buffer whose name
is not explicitly listed. -/
theorem trailing_comma_inserts_empty_name (s : String)
    (hne : s ≠ "")
    (hcomma : (∃ a, s.data = a ++ [',']) ∨ (∃ a b, s.data = a ++ ',' :: ',' :: b)) :
    "" ∈ parseCollections s ∧ parseCollections s ≠ [] ∧
    ∀ (w : WriterState) (dv : DataVector),
      w.m_OUTPUT_INCLUDE_COLLECTIONS = parseCollections s →
      dv.name ∉ parseCollections s →
      ResetBranchesStep w dv = w := by
  have hmem : [] ∈ splitCommas s.data := by
    rcases hcomma with ⟨a, ha⟩ | ⟨a, b, hab⟩
    · rw [ha]
      refine List.mem_of_mem_tail (splitCommas_tail_mem [','] ?_ a)
      simp [splitCommas]
    · rw [hab]
      refine List.mem_of_mem_tail (splitCommas_tail_mem (',' :: ',' :: b) ?_ a)
      simp [splitCommas]
  have hparse : parseCollections s = (splitCommas s.data).map (fun p => String.mk p) := by
    simp [parseCollections, hne]
  have hmem' : "" ∈ parseCollections s := by
    rw [hparse]
    exact List.mem_map.mpr ⟨[], hmem, rfl⟩
  refine ⟨hmem', ?_, ?_⟩
  · intro hnil
    rw [hnil] at hmem'
    cases hmem'
  · intro w dv hw hdv
    by_cases hex : dv.name ∈ w.m_OUTPUT_EXCLUDE_COLLECTIONS
    · simp [ResetBranchesStep, hex]
    · have hski : w.m_OUTPUT_INCLUDE_COLLECTIONS ≠ [] ∧
          dv.name ∉ w.m_OUTPUT_INCLUDE_COLLECTIONS := by
        rw [hw]
        refine ⟨?_, hdv⟩
        intro hnil
        rw [hnil] at hmem'
        cases hmem'
      simp [ResetBranchesStep, hex, hski]

theorem trailing_comma_inserts_empty_name_witness :
    "" ∈ parseCollections "a," ∧ parseCollections "a," ≠ [] ∧
    ResetBranchesStep (initialWriter (parseCollections "a,") []) ⟨"b", "vector<B>", []⟩ =
      initialWriter (parseCollections "a,") [] := by
  have h := trailing_comma_inserts_empty_name "a," (by decide)
    (Or.inl ⟨['a'], rfl⟩)
  exact ⟨h.1, h.2.1, h.2.2 (initialWriter (parseCollections "a,") [])
    ⟨"b", "vector<B>", []⟩ rfl (by decide)⟩
